import Mathlib

/-!
Shallow embedding of the taxi.js autocomplete widget
(src/dist/js/Taxi.js, with the equivalent modern build in src/unnamed/part_000).

The DOM state the widget manipulates is modelled by `TaxiState`:
the bound text input's current value and the ordered list of rendered
item elements inside the display element (`taxi.children`), each carrying
its `value` attribute and whether it bears the `is-selected` class.

Element accesses that would dereference `undefined` in JavaScript
(e.g. `children[-1].classList`) are modelled by returning `none`.
-/

/-- One rendered child element of the display surface: its `value`
attribute and whether its class list contains `is-selected`. -/
structure Item where
  value : String
  isSelected : Bool
  deriving Repr, DecidableEq

/-- The observable widget state: the input element's value and the
rendered children of the taxi display element. -/
structure TaxiState where
  inputValue : String
  children : List Item
  deriving Repr, DecidableEq

/-- The recognized navigation key codes, `this.actionCodes = [40, 38, 9, 13]`
(down, up, tab, enter). -/
def actionCodes : List Nat := [40, 38, 9, 13]

/-- JavaScript whitespace stripped by `String.prototype.trim` (ASCII part). -/
def isJsSpace (c : Char) : Bool :=
  c = ' ' || c = '\t' || c = '\n' || c = '\r' || c.val = 11 || c.val = 12

/-- Model of `value.trim()` on the character list of the input value. -/
def jsTrim (l : List Char) : List Char :=
  ((l.dropWhile isJsSpace).reverse.dropWhile isJsSpace).reverse

/-- `hasMinChar` (src/dist/js/Taxi.js lines 177-182):
`if (!this.options.minChar) return true;`
`if (e.target.value.trim().length >= this.options.minChar) return true;`
`return false;` -/
def hasMinChar (minChar : Nat) (value : String) : Bool :=
  if minChar = 0 then true
  else if minChar ≤ (jsTrim value.data).length then true
  else false

/-- Model of `this.taxi.querySelector(".is-selected")`: the first rendered
child carrying the `is-selected` class, if any. -/
def firstSelected : List Item → Option Item
  | [] => none
  | i :: is => if i.isSelected then some i else firstSelected is

/-- The index of the first child carrying the `is-selected` class, if any. -/
def firstSelectedIdx : List Item → Option Nat
  | [] => none
  | i :: is => if i.isSelected then some 0 else (firstSelectedIdx is).map (· + 1)

/-- Model of `[...children].indexOf(selected)` where `selected` is the
`querySelector` result: the index of the first selected child, `-1` when
there is none. -/
def currentIndex (l : List Item) : Int :=
  match firstSelectedIdx l with
  | some n => (n : Int)
  | none => -1

/-- The clean-up pass
`this.taxi.querySelectorAll(".is-selected").forEach(i => i.classList.toggle("is-selected"))`:
every child that bears the marker has it toggled off, so afterwards no child
bears it. -/
def clearSelected (l : List Item) : List Item :=
  l.map (fun i => { i with isSelected := false })

/-- Model of `children[n].classList.toggle("is-selected")` at a valid index:
flip the marker of the child at position `n` (identity past the end; calls
are guarded by a bounds check in `handleKeyDown`, whose failure is `none`). -/
def toggleAt : List Item → Nat → List Item
  | [], _ => []
  | i :: is, 0 => { i with isSelected := !i.isSelected } :: is
  | i :: is, n + 1 => i :: toggleAt is n

/-- Number of rendered children currently bearing the `is-selected` marker. -/
def selectedCount (l : List Item) : Nat :=
  l.countP (fun i => i.isSelected)

/-- `handleKeyDown` (src/dist/js/Taxi.js lines 227-280), one keydown event
with key code `which` on state `s`.  Returns `none` exactly when the code
would dereference an undefined child element (`children[next]` or
`children[prev]` out of bounds). -/
def handleKeyDown (minChar which : Nat) (s : TaxiState) : Option TaxiState :=
  if hasMinChar minChar s.inputValue = false then
    some { s with children := [] }
  else if actionCodes.contains which = false then
    some s
  else
    let children := s.children
    let mx : Int := (children.length : Int)
    let selected := firstSelected children
    let cleaned := clearSelected children
    let current : Int := currentIndex children
    let next : Int := if current + 1 < mx then current + 1 else current
    let prev : Int := if current - 1 > 0 then current - 1 else 0
    if which = 40 ∨ which = 9 then
      if 0 ≤ next ∧ next < mx then
        some { s with children := toggleAt cleaned next.toNat }
      else none
    else if which = 38 then
      if 0 ≤ prev ∧ prev < mx then
        some { s with children := toggleAt cleaned prev.toNat }
      else none
    else if which = 13 then
      match selected with
      | none => some { s with children := cleaned }
      | some sel => some { inputValue := sel.value, children := [] }
    else
      some { s with children := cleaned }

/-- Rendering of a filtered dataset into display children: each entry becomes
a card whose `value` attribute is the entry (the builtin `classic` formatter
writes `value="${entry}"` on the card), initially unselected. -/
def renderChildren (entries : List String) : List Item :=
  entries.map (fun entry => { value := entry, isSelected := false })

/-- `handleKeyUp` (src/dist/js/Taxi.js lines 191-219): the filter pipeline.
Gate on `hasMinChar` (clearing the display on failure), ignore action codes,
otherwise filter the dataset with the configured query predicate and replace
the display contents. -/
def handleKeyUp (minChar : Nat) (data : List String)
    (query : String → String → Bool) (which : Nat) (s : TaxiState) : TaxiState :=
  if hasMinChar minChar s.inputValue = false then
    { s with children := [] }
  else if actionCodes.contains which then
    s
  else
    { s with children := renderChildren (data.filter (fun entry => query entry s.inputValue)) }

/-- `n` consecutive keydown events with the same key code, stopping with
`none` as soon as one of them crashes. -/
def pressKeys (minChar which : Nat) : Nat → TaxiState → Option TaxiState
  | 0, s => some s
  | n + 1, s =>
    match handleKeyDown minChar which s with
    | none => none
    | some s2 => pressKeys minChar which n s2

/-- Per-character model of `String.prototype.toLowerCase`. -/
def lowerChars (s : String) : List Char := s.data.map Char.toLower

/-- Model of `.replace(/ /g, "")`: remove every space character. -/
def stripSpaces (l : List Char) : List Char :=
  l.filter (fun c => decide (c ≠ ' '))

/-- The scanning loop of `Taxi.Query.fuzzy` (src/dist/js/Taxi.js lines
369-377): walk the record characters once, advancing through the query
whenever the lowercased record character equals the current query character;
`match` accumulates every original record character.  Returns the
accumulated `match` list and the unconsumed remainder of the query. -/
def fuzzyLoop : List Char → List Char → List Char × List Char
  | [], q => ([], q)
  | c :: cs, [] =>
    let r := fuzzyLoop cs []
    (c :: r.1, r.2)
  | c :: cs, qc :: qs =>
    let r := fuzzyLoop cs (if c.toLower = qc then qs else qc :: qs)
    (c :: r.1, r.2)

/-- `Taxi.Query.fuzzy` (src/dist/js/Taxi.js lines 363-382): lowercase the
query and strip its spaces, scan the record, and return `match.join("")`
when the whole query was consumed, otherwise `undefined` (here `none`). -/
def fuzzy (record query : String) : Option String :=
  let q := stripSpaces (lowerChars query)
  let r := fuzzyLoop record.data q
  if r.2 = [] then some (String.mk r.1) else none

/-- Character-list prefix test, auxiliary to the substring test below. -/
def isPrefixChars : List Char → List Char → Bool
  | [], _ => true
  | _ :: _, [] => false
  | a :: as, b :: bs => if a = b then isPrefixChars as bs else false

/-- Model of `String.prototype.includes`: `sub` occurs contiguously in
`hay`. -/
def containsSub : List Char → List Char → Bool
  | [], sub => isPrefixChars sub []
  | c :: t, sub => isPrefixChars sub (c :: t) || containsSub t sub

/-- `Taxi.Query.strict` (src/dist/js/Taxi.js line 362):
`record.toLowerCase().includes(query.toLowerCase())`. -/
def strict (record query : String) : Bool :=
  containsSub (lowerChars record) (lowerChars query)

/-- The filter pass of `handleKeyUp` applied with the `strict` predicate:
`copy.filter(entry => this.options.query(entry, value))`. -/
def strictFilter (data : List String) (value : String) : List String :=
  data.filter (fun entry => strict entry value)

/-! ### Structural lemmas about the marker-manipulation primitives -/

theorem firstSelectedIdx_lt_length {l : List Item} {i : Nat}
    (h : firstSelectedIdx l = some i) : i < l.length := by
  induction l generalizing i with
  | nil => simp [firstSelectedIdx] at h
  | cons a t ih =>
    by_cases ha : a.isSelected
    · simp [firstSelectedIdx, ha] at h
      simp only [List.length_cons]
      omega
    · simp [firstSelectedIdx, ha] at h
      rcases h with ⟨j, hj, rfl⟩
      have := ih hj
      simp only [List.length_cons]
      omega

theorem clearSelected_length (l : List Item) :
    (clearSelected l).length = l.length := by
  simp [clearSelected]

theorem clearSelected_map_value (l : List Item) :
    (clearSelected l).map Item.value = l.map Item.value := by
  induction l with
  | nil => rfl
  | cons a t ih => simp [clearSelected]

theorem mem_clearSelected_false {l : List Item} :
    ∀ x ∈ clearSelected l, x.isSelected = false := by
  intro x hx
  simp [clearSelected] at hx
  rcases hx with ⟨y, hy, rfl⟩
  rfl

theorem firstSelectedIdx_eq_none {l : List Item}
    (h : ∀ x ∈ l, x.isSelected = false) : firstSelectedIdx l = none := by
  induction l with
  | nil => rfl
  | cons a t ih =>
    have ha := h a (by simp)
    simp [firstSelectedIdx, ha]
    exact ih fun x hx => h x (by simp [hx])

theorem toggleAt_length (l : List Item) (n : Nat) :
    (toggleAt l n).length = l.length := by
  induction l generalizing n with
  | nil => rfl
  | cons a t ih =>
    cases n with
    | zero => rfl
    | succ m => simp [toggleAt, ih]

theorem toggleAt_map_value (l : List Item) (n : Nat) :
    (toggleAt l n).map Item.value = l.map Item.value := by
  induction l generalizing n with
  | nil => rfl
  | cons a t ih =>
    cases n with
    | zero => rfl
    | succ m => simp [toggleAt, ih]

theorem firstSelectedIdx_toggleAt {l : List Item}
    (hall : ∀ x ∈ l, x.isSelected = false) {n : Nat} (hn : n < l.length) :
    firstSelectedIdx (toggleAt l n) = some n := by
  induction l generalizing n with
  | nil => simp at hn
  | cons a t ih =>
    have ha := hall a (by simp)
    cases n with
    | zero => simp [toggleAt, firstSelectedIdx, ha]
    | succ m =>
      have hm := ih (fun x hx => hall x (by simp [hx])) (by simpa using hn)
      simp [toggleAt, firstSelectedIdx, ha, hm]

theorem selectedCount_toggleAt {l : List Item}
    (hall : ∀ x ∈ l, x.isSelected = false) {n : Nat} (hn : n < l.length) :
    selectedCount (toggleAt l n) = 1 := by
  induction l generalizing n with
  | nil => simp at hn
  | cons a t ih =>
    have ha := hall a (by simp)
    cases n with
    | zero =>
      have ht : selectedCount t = 0 := by
        simp [selectedCount, List.countP_eq_zero]
        intro x hx
        simpa using hall x (by simp [hx])
      simp [toggleAt, selectedCount, List.countP_cons, ha] at ht ⊢
      simpa [selectedCount] using ht
    | succ m =>
      have hm := ih (fun x hx => hall x (by simp [hx])) (by simpa using hn)
      simp [toggleAt, selectedCount, List.countP_cons, ha] at hm ⊢
      simpa [selectedCount] using hm

theorem selectedCount_toggleAt_le_one {l : List Item}
    (hall : ∀ x ∈ l, x.isSelected = false) (n : Nat) :
    selectedCount (toggleAt l n) ≤ 1 := by
  induction l generalizing n with
  | nil => simp [toggleAt, selectedCount]
  | cons a t ih =>
    have ha := hall a (by simp)
    have ht : selectedCount t = 0 := by
      simp [selectedCount, List.countP_eq_zero]
      intro x hx
      simpa using hall x (by simp [hx])
    cases n with
    | zero =>
      simp [toggleAt, selectedCount, List.countP_cons, ha]
      simpa [selectedCount] using ht
    | succ m =>
      have hm := ih (fun x hx => hall x (by simp [hx])) m
      simp [toggleAt, selectedCount, List.countP_cons, ha]
      simpa [selectedCount] using hm

theorem selectedCount_clearSelected (l : List Item) :
    selectedCount (clearSelected l) = 0 := by
  simp [selectedCount, List.countP_eq_zero]
  intro x hx
  simpa using mem_clearSelected_false x hx

theorem clearSelected_of_none {l : List Item}
    (h : ∀ x ∈ l, x.isSelected = false) : clearSelected l = l := by
  induction l with
  | nil => rfl
  | cons a t ih =>
    have ha := h a (by simp)
    have ht := ih fun x hx => h x (by simp [hx])
    simp [clearSelected] at ht ⊢
    constructor
    · cases a
      simp_all
    · exact ht

theorem all_false_of_firstSelectedIdx_none {l : List Item}
    (h : firstSelectedIdx l = none) : ∀ x ∈ l, x.isSelected = false := by
  induction l with
  | nil => simp
  | cons a t ih =>
    by_cases ha : a.isSelected
    · simp [firstSelectedIdx, ha] at h
    · simp [firstSelectedIdx, ha] at h
      intro x hx
      simp at hx
      rcases hx with rfl | hx
      · simpa using ha
      · exact ih h x hx

theorem firstSelected_none_of_idx_none {l : List Item}
    (h : firstSelectedIdx l = none) : firstSelected l = none := by
  induction l with
  | nil => rfl
  | cons a t ih =>
    by_cases ha : a.isSelected
    · simp [firstSelectedIdx, ha] at h
    · simp [firstSelectedIdx, ha] at h
      simp [firstSelected, ha]
      exact ih h

theorem firstSelected_of_idx {l : List Item} {i : Nat} {it : Item}
    (h : firstSelectedIdx l = some i) (hit : l[i]? = some it) :
    firstSelected l = some it := by
  induction l generalizing i with
  | nil => simp [firstSelectedIdx] at h
  | cons a t ih =>
    by_cases ha : a.isSelected
    · simp [firstSelectedIdx, ha] at h
      subst h
      simp at hit
      subst hit
      simp [firstSelected, ha]
    · simp [firstSelectedIdx, ha] at h
      rcases h with ⟨j, hj, rfl⟩
      simp at hit
      simp [firstSelected, ha]
      exact ih hj hit

/-! ### Unfolding the keydown handler past its two guards -/

theorem handleKeyDown_nav (minChar which : Nat) (s : TaxiState)
    (hg : hasMinChar minChar s.inputValue = true)
    (hw : actionCodes.contains which = true) :
    handleKeyDown minChar which s =
      (if which = 40 ∨ which = 9 then
        if 0 ≤ (if currentIndex s.children + 1 < (s.children.length : Int) then
                  currentIndex s.children + 1 else currentIndex s.children)
            ∧ (if currentIndex s.children + 1 < (s.children.length : Int) then
                  currentIndex s.children + 1 else currentIndex s.children)
              < (s.children.length : Int) then
          some { s with children := (toggleAt (clearSelected s.children)
            (if currentIndex s.children + 1 < (s.children.length : Int) then
                currentIndex s.children + 1 else currentIndex s.children).toNat) }
        else none
      else if which = 38 then
        if 0 ≤ (if currentIndex s.children - 1 > 0 then currentIndex s.children - 1 else 0)
            ∧ (if currentIndex s.children - 1 > 0 then currentIndex s.children - 1 else 0)
              < (s.children.length : Int) then
          some { s with children := (toggleAt (clearSelected s.children)
            (if currentIndex s.children - 1 > 0 then
                currentIndex s.children - 1 else 0).toNat) }
        else none
      else if which = 13 then
        match firstSelected s.children with
        | none => some { s with children := clearSelected s.children }
        | some sel => some { inputValue := sel.value, children := [] }
      else
        some { s with children := clearSelected s.children }) := by
  unfold handleKeyDown
  rw [hg, hw]
  simp

/-- The down/tab step on a non-empty list, in closed form: the child at the
clamped successor index of the current index becomes the selected one. -/
theorem down_step (minChar which : Nat) (s : TaxiState)
    (hk : which = 40 ∨ which = 9)
    (hg : hasMinChar minChar s.inputValue = true)
    (hne : s.children ≠ []) :
    handleKeyDown minChar which s =
      some { s with children := (toggleAt (clearSelected s.children)
        (match firstSelectedIdx s.children with
         | some i => min (i + 1) (s.children.length - 1)
         | none => 0)) } := by
  have hw : actionCodes.contains which = true := by
    rcases hk with h | h <;> subst h <;> decide
  have hlen : 0 < s.children.length := List.length_pos.mpr hne
  rw [handleKeyDown_nav minChar which s hg hw, if_pos hk]
  rcases hsel : firstSelectedIdx s.children with _ | i
  · simp only [currentIndex, hsel]
    have h1 : (-1 : Int) + 1 < (s.children.length : Int) := by omega
    rw [if_pos h1]
    rw [if_pos (by constructor <;> omega : (0 : Int) ≤ -1 + 1 ∧ (-1 : Int) + 1 < (s.children.length : Int))]
    have hnt : ((-1 : Int) + 1).toNat = 0 := by omega
    rw [hnt]
  · have hi := firstSelectedIdx_lt_length hsel
    simp only [currentIndex, hsel]
    by_cases h2 : (i : Int) + 1 < (s.children.length : Int)
    · rw [if_pos h2]
      rw [if_pos (by constructor <;> omega : (0 : Int) ≤ (i : Int) + 1 ∧ (i : Int) + 1 < (s.children.length : Int))]
      have hnt : ((i : Int) + 1).toNat = min (i + 1) (s.children.length - 1) := by omega
      rw [hnt]
    · rw [if_neg h2]
      rw [if_pos (by constructor <;> omega : (0 : Int) ≤ (i : Int) ∧ (i : Int) < (s.children.length : Int))]
      have hnt : ((i : Int)).toNat = min (i + 1) (s.children.length - 1) := by omega
      rw [hnt]

/-- The up step on a non-empty list, in closed form: the child at the
clamped predecessor index of the current index becomes the selected one. -/
theorem up_step (minChar : Nat) (s : TaxiState)
    (hg : hasMinChar minChar s.inputValue = true)
    (hne : s.children ≠ []) :
    handleKeyDown minChar 38 s =
      some { s with children := (toggleAt (clearSelected s.children)
        (match firstSelectedIdx s.children with
         | some i => i - 1
         | none => 0)) } := by
  have hlen : 0 < s.children.length := List.length_pos.mpr hne
  rw [handleKeyDown_nav minChar 38 s hg (by decide)]
  rw [if_neg (by decide : ¬ ((38 : Nat) = 40 ∨ (38 : Nat) = 9)), if_pos rfl]
  rcases hsel : firstSelectedIdx s.children with _ | i
  · simp only [currentIndex, hsel]
    rw [if_neg (by omega : ¬ ((-1 : Int) - 1 > 0))]
    rw [if_pos (by constructor <;> omega : (0 : Int) ≤ 0 ∧ (0 : Int) < (s.children.length : Int))]
    have hnt : ((0 : Int)).toNat = 0 := by omega
    rw [hnt]
  · have hi := firstSelectedIdx_lt_length hsel
    simp only [currentIndex, hsel]
    by_cases h2 : (i : Int) - 1 > 0
    · rw [if_pos h2]
      rw [if_pos (by constructor <;> omega : (0 : Int) ≤ (i : Int) - 1 ∧ (i : Int) - 1 < (s.children.length : Int))]
      have hnt : ((i : Int) - 1).toNat = i - 1 := by omega
      rw [hnt]
    · rw [if_neg h2]
      rw [if_pos (by constructor <;> omega : (0 : Int) ≤ 0 ∧ (0 : Int) < (s.children.length : Int))]
      have hnt : ((0 : Int)).toNat = i - 1 := by omega
      rw [hnt]

/-- Toggling position `n` of a fully cleared list yields the canonical
single-highlight state. -/
theorem highlight_result (l : List Item) {n : Nat} (hn : n < l.length) :
    firstSelectedIdx (toggleAt (clearSelected l) n) = some n
    ∧ selectedCount (toggleAt (clearSelected l) n) = 1
    ∧ (toggleAt (clearSelected l) n).map Item.value = l.map Item.value := by
  have hlen : (clearSelected l).length = l.length := clearSelected_length l
  refine ⟨?_, ?_, ?_⟩
  · exact firstSelectedIdx_toggleAt mem_clearSelected_false (by omega)
  · exact selectedCount_toggleAt mem_clearSelected_false (by omega)
  · rw [toggleAt_map_value]
    exact clearSelected_map_value l

/-! ### Claims about the selection controller -/

/-- Claim C1: on every non-empty RenderedList (gate passing), a down (40) or
tab (9) keydown moves the highlighted state from Highlighted(i) to
Highlighted(min(i+1, last)) with no wraparound, and from Idle it behaves as
if the current index were -1, so the first press selects index 0. -/
theorem down_tab_selects_clamped_successor (minChar which : Nat) (s : TaxiState)
    (hk : which = 40 ∨ which = 9)
    (hg : hasMinChar minChar s.inputValue = true)
    (hne : s.children ≠ []) :
    ∃ s2, handleKeyDown minChar which s = some s2
      ∧ firstSelectedIdx s2.children =
          some (match firstSelectedIdx s.children with
                | some i => min (i + 1) (s.children.length - 1)
                | none => 0)
      ∧ selectedCount s2.children = 1
      ∧ s2.inputValue = s.inputValue
      ∧ s2.children.map Item.value = s.children.map Item.value := by
  have hlen : 0 < s.children.length := List.length_pos.mpr hne
  have hb : (match firstSelectedIdx s.children with
             | some i => min (i + 1) (s.children.length - 1)
             | none => 0) < s.children.length := by
    rcases hsel : firstSelectedIdx s.children with _ | i
    · simp only [hsel]
      omega
    · have := firstSelectedIdx_lt_length hsel
      simp only [hsel]
      rw [min_def]
      split <;> omega
  have H := highlight_result s.children hb
  exact ⟨_, down_step minChar which s hk hg hne, H.1, H.2.1, rfl, H.2.2⟩

theorem down_tab_selects_clamped_successor_witness :
    ∃ s2, handleKeyDown 1 40 ⟨"vo", renderChildren ["Volkswagen", "Mercedes"]⟩ = some s2
      ∧ firstSelectedIdx s2.children =
          some (match firstSelectedIdx (renderChildren ["Volkswagen", "Mercedes"]) with
                | some i => min (i + 1) ((renderChildren ["Volkswagen", "Mercedes"]).length - 1)
                | none => 0)
      ∧ selectedCount s2.children = 1
      ∧ s2.inputValue = "vo"
      ∧ s2.children.map Item.value = (renderChildren ["Volkswagen", "Mercedes"]).map Item.value :=
  down_tab_selects_clamped_successor 1 40 ⟨"vo", renderChildren ["Volkswagen", "Mercedes"]⟩
    (Or.inl rfl) (by decide) (by decide)

/-- Claim C2: an up (38) keydown from Highlighted(i) moves to
Highlighted(max(i-1, 0)) (written with truncated subtraction i - 1), stays
highlighted (never returns to Idle), and in particular stays at 0 when i = 0. -/
theorem up_clamps_at_zero (minChar : Nat) (s : TaxiState) (i : Nat)
    (hg : hasMinChar minChar s.inputValue = true)
    (hsel : firstSelectedIdx s.children = some i) :
    ∃ s2, handleKeyDown minChar 38 s = some s2
      ∧ firstSelectedIdx s2.children = some (i - 1)
      ∧ selectedCount s2.children = 1
      ∧ s2.inputValue = s.inputValue
      ∧ s2.children.map Item.value = s.children.map Item.value := by
  have hi := firstSelectedIdx_lt_length hsel
  have hne : s.children ≠ [] := by
    intro h
    rw [h] at hsel
    simp [firstSelectedIdx] at hsel
  have hstep := up_step minChar s hg hne
  simp only [hsel] at hstep
  have H := highlight_result s.children (show i - 1 < s.children.length by omega)
  exact ⟨_, hstep, H.1, H.2.1, rfl, H.2.2⟩

theorem up_clamps_at_zero_witness :
    ∃ s2, handleKeyDown 1 38 ⟨"vo", [⟨"Volkswagen", true⟩, ⟨"Mercedes", false⟩]⟩ = some s2
      ∧ firstSelectedIdx s2.children = some (0 - 1)
      ∧ selectedCount s2.children = 1
      ∧ s2.inputValue = "vo"
      ∧ s2.children.map Item.value =
          [⟨"Volkswagen", true⟩, ⟨"Mercedes", false⟩].map Item.value :=
  up_clamps_at_zero 1 ⟨"vo", [⟨"Volkswagen", true⟩, ⟨"Mercedes", false⟩]⟩ 0
    (by decide) (by decide)

/-- Claim C10: an up (38) keydown while in Idle on a non-empty RenderedList
transitions to Highlighted(0) (the previous-index computation clamps
-1 - 1 = -2 to 0) rather than remaining Idle. -/
theorem up_from_idle_selects_first (minChar : Nat) (s : TaxiState)
    (hg : hasMinChar minChar s.inputValue = true)
    (hne : s.children ≠ [])
    (hidle : firstSelectedIdx s.children = none) :
    ∃ s2, handleKeyDown minChar 38 s = some s2
      ∧ firstSelectedIdx s2.children = some 0
      ∧ selectedCount s2.children = 1
      ∧ s2.inputValue = s.inputValue
      ∧ s2.children.map Item.value = s.children.map Item.value := by
  have hstep := up_step minChar s hg hne
  simp only [hidle] at hstep
  have hlen : 0 < s.children.length := List.length_pos.mpr hne
  have H := highlight_result s.children hlen
  exact ⟨_, hstep, H.1, H.2.1, rfl, H.2.2⟩

theorem up_from_idle_selects_first_witness :
    ∃ s2, handleKeyDown 1 38 ⟨"vo", renderChildren ["Volkswagen", "Mercedes"]⟩ = some s2
      ∧ firstSelectedIdx s2.children = some 0
      ∧ selectedCount s2.children = 1
      ∧ s2.inputValue = "vo"
      ∧ s2.children.map Item.value = (renderChildren ["Volkswagen", "Mercedes"]).map Item.value :=
  up_from_idle_selects_first 1 ⟨"vo", renderChildren ["Volkswagen", "Mercedes"]⟩
    (by decide) (by decide) (by decide)

/-- Claim C3: an enter (13) keydown in Idle is a silent no-op (input value
and display surface unchanged, nothing committed); in Highlighted(i) it
copies the value attribute of rendered item i into the input, clears the
display surface, and resets to Idle (no children remain, hence no highlight). -/
theorem enter_commits_highlighted (minChar : Nat) (s : TaxiState)
    (hg : hasMinChar minChar s.inputValue = true) :
    (firstSelectedIdx s.children = none → handleKeyDown minChar 13 s = some s)
    ∧ (∀ i it, firstSelectedIdx s.children = some i → s.children[i]? = some it →
        handleKeyDown minChar 13 s = some { inputValue := it.value, children := [] }) := by
  have hnav := handleKeyDown_nav minChar 13 s hg (by decide)
  rw [if_neg (by decide : ¬ ((13 : Nat) = 40 ∨ (13 : Nat) = 9)),
    if_neg (by decide : ¬ ((13 : Nat) = 38)), if_pos rfl] at hnav
  constructor
  · intro hidle
    rw [hnav, firstSelected_none_of_idx_none hidle,
      clearSelected_of_none (all_false_of_firstSelectedIdx_none hidle)]
  · intro i it hsel hit
    rw [hnav, firstSelected_of_idx hsel hit]

theorem enter_commits_highlighted_witness :
    handleKeyDown 1 13 ⟨"vo", [⟨"Volkswagen", true⟩]⟩
      = some { inputValue := "Volkswagen", children := [] } :=
  (enter_commits_highlighted 1 ⟨"vo", [⟨"Volkswagen", true⟩]⟩ (by decide)).2
    0 ⟨"Volkswagen", true⟩ (by decide) (by decide)

/-- Claim C9: on an empty RenderedList with the gate passing, a down (40),
up (38) or tab (9) keydown dereferences an undefined child element
(index -1 for down/tab, index 0 for up, of the empty child collection), so
the navigation transition is not total on the empty list. -/
theorem empty_list_nav_crashes (minChar which : Nat) (s : TaxiState)
    (hg : hasMinChar minChar s.inputValue = true)
    (he : s.children = [])
    (hk : which = 40 ∨ which = 38 ∨ which = 9) :
    handleKeyDown minChar which s = none := by
  have hw : actionCodes.contains which = true := by
    rcases hk with rfl | rfl | rfl <;> decide
  rcases hk with rfl | rfl | rfl <;>
    rw [handleKeyDown_nav _ _ s hg hw, he] <;> rfl

theorem empty_list_nav_crashes_witness :
    handleKeyDown 1 40 ⟨"vo", []⟩ = none :=
  empty_list_nav_crashes 1 40 ⟨"vo", []⟩ (by decide) rfl (Or.inl rfl)

set_option linter.unusedTactic false in
/-- Claim C4: after every navigation keydown (down, up, tab, enter) that
completes, at most one rendered item bears the is-selected marker: all
markers are cleared before the new one is applied, whatever the starting
state was. -/
theorem nav_at_most_one_selected (minChar which : Nat) (s s2 : TaxiState)
    (hw : which ∈ actionCodes)
    (h : handleKeyDown minChar which s = some s2) :
    selectedCount s2.children ≤ 1 := by
  by_cases hg : hasMinChar minChar s.inputValue = true
  · have hw2 : actionCodes.contains which = true := by
      simp [actionCodes] at hw
      rcases hw with rfl | rfl | rfl | rfl <;> decide
    rw [handleKeyDown_nav minChar which s hg hw2] at h
    repeat' split at h
    all_goals
      first
      | exact Option.noConfusion h
      | (injection h with h9
         subst h9
         first
         | exact selectedCount_toggleAt_le_one mem_clearSelected_false _
         | (simp [selectedCount_clearSelected]; done)
         | (simp [selectedCount]; done))
  · have hgf : hasMinChar minChar s.inputValue = false := by
      simpa using hg
    unfold handleKeyDown at h
    rw [hgf] at h
    simp at h
    rw [← h]
    simp [selectedCount]

theorem nav_at_most_one_selected_witness :
    selectedCount (TaxiState.mk "vo" [Item.mk "Volkswagen" true]).children ≤ 1 :=
  nav_at_most_one_selected 1 40 ⟨"vo", [⟨"Volkswagen", false⟩]⟩
    ⟨"vo", [⟨"Volkswagen", true⟩]⟩ (by decide) (by decide)

/-- Claim C7: the minimum-length gate compares the trimmed input length
against minChar: a falsy (zero) minChar always passes, otherwise the gate
passes exactly when the trimmed length is at least minChar; and whenever
the gate fails, both the keyup and the keydown handlers clear the display
immediately, for every key code and every dataset. -/
theorem minChar_gate_spec (minChar which : Nat) (data : List String)
    (query : String → String → Bool) (s : TaxiState) :
    (hasMinChar minChar s.inputValue = true ↔
      (minChar = 0 ∨ minChar ≤ (jsTrim s.inputValue.data).length))
    ∧ (hasMinChar minChar s.inputValue = false →
        (handleKeyUp minChar data query which s).children = []
        ∧ handleKeyDown minChar which s = some { s with children := [] }) := by
  constructor
  · unfold hasMinChar
    split_ifs with h1 h2
    · simp [h1]
    · simp [h2]
    · simp [h1, h2]
  · intro hfail
    constructor
    · unfold handleKeyUp
      rw [hfail]
      simp
    · unfold handleKeyDown
      rw [hfail]
      simp

theorem minChar_gate_spec_witness :
    (handleKeyUp 3 ["Volkwagen", "Mercedes", "Daimler"] strict 0
        ⟨"ab", []⟩).children = []
    ∧ handleKeyDown 3 0 ⟨"ab", []⟩ = some { TaxiState.mk "ab" [] with children := [] } :=
  (minChar_gate_spec 3 0 ["Volkwagen", "Mercedes", "Daimler"] strict ⟨"ab", []⟩).2 (by decide)

/-! ### Iterated down presses -/

theorem down_step_highlighted (minChar : Nat) (s : TaxiState) (i : Nat)
    (hg : hasMinChar minChar s.inputValue = true)
    (hs : firstSelectedIdx s.children = some i) :
    ∃ s2, handleKeyDown minChar 40 s = some s2
      ∧ s2.inputValue = s.inputValue
      ∧ s2.children.length = s.children.length
      ∧ firstSelectedIdx s2.children = some (min (i + 1) (s.children.length - 1)) := by
  have hi := firstSelectedIdx_lt_length hs
  have hne : s.children ≠ [] := by
    intro hnil
    rw [hnil] at hs
    simp [firstSelectedIdx] at hs
  have hstep := down_step minChar 40 s (Or.inl rfl) hg hne
  simp only [hs] at hstep
  have hb : min (i + 1) (s.children.length - 1) < (clearSelected s.children).length := by
    rw [clearSelected_length]
    omega
  refine ⟨_, hstep, rfl, ?_, ?_⟩
  · rw [toggleAt_length, clearSelected_length]
  · exact firstSelectedIdx_toggleAt mem_clearSelected_false hb

theorem down_step_idle_props (minChar : Nat) (s : TaxiState)
    (hg : hasMinChar minChar s.inputValue = true)
    (hne : s.children ≠ [])
    (hidle : firstSelectedIdx s.children = none) :
    ∃ s2, handleKeyDown minChar 40 s = some s2
      ∧ s2.inputValue = s.inputValue
      ∧ s2.children.length = s.children.length
      ∧ firstSelectedIdx s2.children = some 0 := by
  have hlen : 0 < s.children.length := List.length_pos.mpr hne
  have hstep := down_step minChar 40 s (Or.inl rfl) hg hne
  simp only [hidle] at hstep
  have hb : 0 < (clearSelected s.children).length := by
    rw [clearSelected_length]
    omega
  refine ⟨_, hstep, rfl, ?_, ?_⟩
  · rw [toggleAt_length, clearSelected_length]
  · exact firstSelectedIdx_toggleAt mem_clearSelected_false hb

theorem pressKeys_down_from_highlighted (minChar : Nat) :
    ∀ (k : Nat) (s : TaxiState) (i : Nat),
      hasMinChar minChar s.inputValue = true →
      s.children.length = 3 →
      firstSelectedIdx s.children = some i →
      ∃ s2, pressKeys minChar 40 k s = some s2
        ∧ s2.inputValue = s.inputValue
        ∧ s2.children.length = 3
        ∧ firstSelectedIdx s2.children = some (min (i + k) 2) := by
  intro k
  induction k with
  | zero =>
    intro s i hg h3 hs
    have hi := firstSelectedIdx_lt_length hs
    rw [h3] at hi
    refine ⟨s, rfl, rfl, h3, ?_⟩
    rw [hs]
    congr 1
    omega
  | succ m ih =>
    intro s i hg h3 hs
    have hi := firstSelectedIdx_lt_length hs
    rw [h3] at hi
    obtain ⟨s1, hstep, hv1, hl1, hidx1⟩ := down_step_highlighted minChar s i hg hs
    rw [h3] at hidx1
    rw [h3] at hl1
    obtain ⟨s2, hp, hv2, hl2, hidx2⟩ := ih s1 (min (i + 1) (3 - 1))
      (by rw [hv1]; exact hg) hl1 hidx1
    refine ⟨s2, ?_, by rw [hv2, hv1], hl2, ?_⟩
    · simp only [pressKeys]
      rw [hstep]
      exact hp
    · rw [hidx2]
      congr 1
      omega

/-- Claim C8 as stated is refuted by a single press: starting from Idle over
a RenderedList of length 3, one down press highlights index 0, whereas the
claim predicts min(1, 2) = 1. -/
theorem downN_min_counterexample :
    (pressKeys 1 40 1 ⟨"vo", renderChildren ["a", "b", "c"]⟩).map
        (fun s2 => firstSelectedIdx s2.children) = some (some 0)
    ∧ some (some 0) ≠ (some (some (min 1 2)) : Option (Option Nat)) := by
  constructor
  · decide
  · decide

/-- Claim C8 (amended): for every N ≥ 1, after N consecutive down (40)
presses starting from Idle over a RenderedList of length 3 (gate passing),
the highlighted index equals min(N-1, 2): the first press selects index 0
and each further press moves down one, clamped at the last index 2. -/
theorem downN_amended_spec (minChar N : Nat) (s : TaxiState)
    (hN : 1 ≤ N)
    (hg : hasMinChar minChar s.inputValue = true)
    (hlen : s.children.length = 3)
    (hidle : firstSelectedIdx s.children = none) :
    ∃ s2, pressKeys minChar 40 N s = some s2
      ∧ firstSelectedIdx s2.children = some (min (N - 1) 2) := by
  obtain ⟨m, rfl⟩ : ∃ m, N = m + 1 := ⟨N - 1, by omega⟩
  have hne : s.children ≠ [] := by
    intro hnil
    rw [hnil] at hlen
    simp at hlen
  obtain ⟨s1, hstep, hv1, hl1, hidx1⟩ := down_step_idle_props minChar s hg hne hidle
  obtain ⟨s2, hp, hv2, hl2, hidx2⟩ := pressKeys_down_from_highlighted minChar m s1 0
    (by rw [hv1]; exact hg) (by rw [hl1, hlen]) hidx1
  refine ⟨s2, ?_, ?_⟩
  · simp only [pressKeys]
    rw [hstep]
    exact hp
  · rw [hidx2]
    congr 1
    omega

theorem downN_amended_spec_witness :
    ∃ s2, pressKeys 1 40 5 ⟨"vo", renderChildren ["a", "b", "c"]⟩ = some s2
      ∧ firstSelectedIdx s2.children = some (min (5 - 1) 2) :=
  downN_amended_spec 1 5 ⟨"vo", renderChildren ["a", "b", "c"]⟩
    (by decide) (by decide) (by decide) (by decide)

/-! ### The query predicates -/

theorem fuzzyLoop_fst (rs : List Char) : ∀ q : List Char, (fuzzyLoop rs q).1 = rs := by
  induction rs with
  | nil => intro q; rfl
  | cons c cs ih =>
    intro q
    cases q with
    | nil => simp [fuzzyLoop, ih]
    | cons qc qs => simp [fuzzyLoop, ih]

theorem fuzzyLoop_nil_query (rs : List Char) : fuzzyLoop rs [] = (rs, []) := by
  induction rs with
  | nil => rfl
  | cons c cs ih => simp [fuzzyLoop, ih]

theorem fuzzyLoop_snd_nil_iff (rs : List Char) :
    ∀ q : List Char, (fuzzyLoop rs q).2 = [] ↔ List.Sublist q (rs.map Char.toLower) := by
  induction rs with
  | nil =>
    intro q
    simp only [fuzzyLoop, List.map_nil]
    exact ⟨fun h => h ▸ List.Sublist.refl [], fun h => List.sublist_nil.mp h⟩
  | cons c cs ih =>
    intro q
    cases q with
    | nil =>
      simp [fuzzyLoop_nil_query]
    | cons qc qs =>
      by_cases hc : c.toLower = qc
      · simp only [fuzzyLoop, List.map_cons]
        rw [if_pos hc, ih qs]
        subst hc
        exact ( List.cons_sublist_cons).symm
      · simp only [fuzzyLoop, if_neg hc, List.map_cons]
        rw [ih (qc :: qs)]
        constructor
        · intro h
          exact h.cons _
        · intro h
          cases h with
          | cons _ h2 => exact h2
          | cons₂ _ h2 => exact absurd rfl hc

/-- Claim C5: the fuzzy predicate succeeds iff the lowercased, space-stripped
query appears as an ordered (not necessarily contiguous) subsequence of the
lowercased record; on success it returns the original record, on failure a
no-match signal (none); an empty stripped query succeeds on every record. -/
theorem fuzzy_subsequence_spec (record query : String) :
    ((fuzzy record query).isSome = true ↔
      List.Sublist (stripSpaces (lowerChars query)) (lowerChars record))
    ∧ (fuzzy record query = some record ∨ fuzzy record query = none)
    ∧ (stripSpaces (lowerChars query) = [] → fuzzy record query = some record) := by
  have hfst := fuzzyLoop_fst record.data (stripSpaces (lowerChars query))
  have hiff := fuzzyLoop_snd_nil_iff record.data (stripSpaces (lowerChars query))
  by_cases h : (fuzzyLoop record.data (stripSpaces (lowerChars query))).2 = []
  · have hsome : fuzzy record query = some record := by
      simp only [fuzzy]
      rw [if_pos h, hfst]
    refine ⟨?_, Or.inl hsome, fun _ => hsome⟩
    simp only [hsome, Option.isSome_some, true_iff]
    exact hiff.mp h
  · have hnone : fuzzy record query = none := by
      simp only [fuzzy]
      rw [if_neg h]
    refine ⟨?_, Or.inr hnone, ?_⟩
    · simp only [hnone, Option.isSome_none, Bool.false_eq_true, false_iff]
      intro hsub
      exact h (hiff.mpr hsub)
    · intro hq
      exact absurd (hiff.mpr (by rw [hq]; exact List.nil_sublist _)) h

theorem fuzzy_subsequence_spec_witness :
    fuzzy "Volkswagen" "" = some "Volkswagen" :=
  (fuzzy_subsequence_spec "Volkswagen" "").2.2 (by decide)

theorem isPrefixChars_iff (q : List Char) :
    ∀ h : List Char, isPrefixChars q h = true ↔ q <+: h := by
  induction q with
  | nil =>
    intro h
    simp [isPrefixChars, List.nil_prefix]
  | cons a as ih =>
    intro h
    cases h with
    | nil =>
      simp [isPrefixChars]
    | cons b bs =>
      by_cases hab : a = b
      · subst hab
        simp [isPrefixChars, ih, List.cons_prefix_cons]
      · simp [isPrefixChars, hab, List.cons_prefix_cons]

theorem containsSub_iff (h q : List Char) :
    containsSub h q = true ↔ q <:+: h := by
  induction h with
  | nil =>
    cases q with
    | nil => simp [containsSub, isPrefixChars]
    | cons a as => simp [containsSub, isPrefixChars, List.infix_nil]
  | cons c t ih =>
    simp [containsSub, isPrefixChars_iff, ih, List.infix_cons_iff, Bool.or_eq_true]

/-- Claim C6: filtering a dataset with the strict predicate returns exactly
the sublist of elements whose lowercased form contains the lowercased query
as a contiguous substring, preserving original order with no reordering or
deduplication (the result is the filter of the dataset by that declarative
predicate, and a sublist of the dataset). -/
theorem strictFilter_spec (D : List String) (q : String) :
    strictFilter D q =
      D.filter (fun s => decide (List.IsInfix (lowerChars q) (lowerChars s)))
    ∧ List.Sublist (strictFilter D q) D := by
  constructor
  · apply List.filter_congr
    intro s _
    rw [show strict s q = containsSub (lowerChars s) (lowerChars q) from rfl]
    cases hd : (decide (List.IsInfix (lowerChars q) (lowerChars s)) : Bool)
    · simp only [decide_eq_false_iff_not] at hd
      cases hc : containsSub (lowerChars s) (lowerChars q)
      · rfl
      · exact absurd ((containsSub_iff _ _).mp hc) hd
    · simp only [decide_eq_true_eq] at hd
      exact (containsSub_iff _ _).mpr hd
  · exact List.filter_sublist D

theorem strictFilter_spec_example :
    strictFilter ["Volkwagen", "Mercedes", "Daimler"] "vo" = ["Volkwagen"] := by
  decide
